import Mathlib

/-!
Verification development for the ScienceMode4 python wrapper repository.

The repository itself is a thin cffi binding: the protocol engine (framing,
checksums, packet-number generation, acknowledgment correlation, the mid-level
streaming state machine) lives in an external C library that is not part of
this source tree.  Following the specification, the protocol-engine components
are modelled here from the specification text, while the notebook code
(P24_ml_one_channel.ipynb) is embedded directly from the source.
-/

namespace ScienceMode

/-! ## Command data model (spec sections 3 and 4.4) -/

/-- Modelled from the spec: a single stimulation point of a channel waveform,
a (time, current) pair.  Mirrors the `points[i].time` and `points[i].current`
fields used by the notebook. -/
structure StimPoint where
  time : Int
  current : Int
deriving DecidableEq

/-- Modelled from the spec: per-channel stimulation waveform, mirroring the
`channel_config[ch]` fields set by the notebook: `period`, `number_of_points`
and the ordered point list. -/
structure ChannelConfig where
  period : Int
  number_of_points : Nat
  points : List StimPoint
deriving DecidableEq

/-- Modelled from the spec: the all-zero channel configuration, the state of a
channel that was never configured (cffi zero-initialises the structures). -/
def zeroChannelConfig : ChannelConfig := ⟨0, 0, []⟩

/-- Modelled from the spec: a mid-level update command body.  One entry per
channel 0..7: the `enable_channel[i]` flag paired with `channel_config[i]`. -/
structure MlUpdate where
  channels : List (Bool × ChannelConfig)
deriving DecidableEq

/-- Modelled from the spec: the command-number tags of the five command kinds
covered by the specification. -/
inductive CmdTag
  | get_extended_version
  | ml_init
  | ml_update
  | ml_stop
  | ml_get_current_data
deriving DecidableEq

/-- Modelled from the spec: the five command kinds of section 4.4 (version
query, mid-level init, update, stop, get-current-data). -/
inductive Command
  | get_extended_version
  | ml_init
  | ml_update (u : MlUpdate)
  | ml_stop
  | ml_get_current_data (data_selection : Int)
deriving DecidableEq

/-- The command-number tag of a command. -/
def Command.tag : Command → CmdTag
  | .get_extended_version => .get_extended_version
  | .ml_init => .ml_init
  | .ml_update _ => .ml_update
  | .ml_stop => .ml_stop
  | .ml_get_current_data _ => .ml_get_current_data

/-! ## Payload encoders and decoders (spec section 4.4) -/

/-- Modelled from the spec: the point list is serialised as the flat sequence
time, current, time, current, ... in point order. -/
def encodePoints (ps : List StimPoint) : List Int :=
  ps.flatMap (fun p => [p.time, p.current])

/-- Modelled from the spec: a channel entry is serialised as a 0 flag when the
channel is disabled, or a 1 flag followed by period, point count and the
serialised points when enabled. -/
def encodeChannel : Bool × ChannelConfig → List Int
  | (false, _) => [0]
  | (true, c) => 1 :: c.period :: (c.number_of_points : Int) :: encodePoints c.points

/-- Modelled from the spec: per-command payload serialisation.  The version
query, init and stop carry an empty payload; get-current-data carries the data
selection; the update carries the eight channel entries in channel order. -/
def encodeCmd : Command → List Int
  | .get_extended_version => []
  | .ml_init => []
  | .ml_update u => u.channels.flatMap encodeChannel
  | .ml_stop => []
  | .ml_get_current_data sel => [sel]

/-- Modelled from the spec: decode a fixed number of serialised points,
returning the points and the unconsumed remainder of the payload. -/
def decodePoints : Nat → List Int → Option (List StimPoint × List Int)
  | 0, rest => some ([], rest)
  | n + 1, t :: c :: rest =>
    match decodePoints n rest with
    | some (ps, rest2) => some (⟨t, c⟩ :: ps, rest2)
    | none => none
  | _ + 1, [] => none
  | _ + 1, [_] => none

/-- Modelled from the spec: decode a fixed number of channel entries from an
update payload, validating the schema and failing on any mismatch. -/
def decodeChannels : Nat → List Int → Option (List (Bool × ChannelConfig))
  | 0, [] => some []
  | 0, _ :: _ => none
  | n + 1, payload =>
    match payload with
    | 0 :: rest =>
      match decodeChannels n rest with
      | some cs => some ((false, zeroChannelConfig) :: cs)
      | none => none
    | 1 :: per :: np :: rest =>
      if np < 0 then none
      else
        match decodePoints np.toNat rest with
        | some (ps, rest2) =>
          match decodeChannels n rest2 with
          | some cs => some ((true, ⟨per, np.toNat, ps⟩) :: cs)
          | none => none
        | none => none
    | _ => none

/-- Modelled from the spec: per-command payload decoding, dispatched on the
command-number tag; each decoder validates the payload against the expected
schema for that command and fails on mismatch. -/
def decodeCmd (tag : CmdTag) (payload : List Int) : Option Command :=
  match tag with
  | .get_extended_version =>
    match payload with
    | [] => some .get_extended_version
    | _ => none
  | .ml_init =>
    match payload with
    | [] => some .ml_init
    | _ => none
  | .ml_stop =>
    match payload with
    | [] => some .ml_stop
    | _ => none
  | .ml_get_current_data =>
    match payload with
    | [sel] => some (.ml_get_current_data sel)
    | _ => none
  | .ml_update =>
    match decodeChannels 8 payload with
    | some cs => some (.ml_update ⟨cs⟩)
    | none => none

/-- Modelled from the spec: validity of one channel entry.  A disabled channel
carries the zero configuration; an enabled channel has a point count that
matches its point list. -/
def validChannel : Bool × ChannelConfig → Bool
  | (false, c) => decide (c = zeroChannelConfig)
  | (true, c) => decide (c.number_of_points = c.points.length)

/-- Modelled from the spec: validity of a command.  Only the update command
has structural constraints: exactly eight channel entries, each valid. -/
def validCommand : Command → Bool
  | .ml_update u => decide (u.channels.length = 8) && u.channels.all validChannel
  | _ => true

/-! ## Round-trip lemmas for the payload codec -/

theorem decodePoints_encodePoints (ps : List StimPoint) (rest : List Int) :
    decodePoints ps.length (encodePoints ps ++ rest) = some (ps, rest) := by
  induction ps with
  | nil => rfl
  | cons p ps ih =>
    cases p with
    | mk t c =>
      have h1 : encodePoints (⟨t, c⟩ :: ps) ++ rest = t :: c :: (encodePoints ps ++ rest) := by
        simp [encodePoints]
      rw [List.length_cons, h1]
      simp only [decodePoints]
      rw [ih]

theorem decodeChannels_encodeChannels (cs : List (Bool × ChannelConfig))
    (h : ∀ e ∈ cs, validChannel e = true) :
    decodeChannels cs.length (cs.flatMap encodeChannel) = some cs := by
  induction cs with
  | nil => rfl
  | cons e cs ih =>
    have he : validChannel e = true := h e (List.mem_cons_self e cs)
    have hcs : ∀ x ∈ cs, validChannel x = true :=
      fun x hx => h x (List.mem_cons_of_mem e hx)
    cases e with
    | mk b c =>
      cases b with
      | false =>
        have hc : c = zeroChannelConfig := by
          simpa [validChannel] using he
        subst hc
        simp [List.flatMap_cons, encodeChannel, decodeChannels, ih hcs]
      | true =>
        have hc : c.number_of_points = c.points.length := by
          simpa [validChannel] using he
        cases c with
        | mk per np pts =>
          simp at hc
          subst hc
          simp [List.flatMap_cons, encodeChannel, decodeChannels, List.append_assoc]
          rw [decodePoints_encodePoints pts (cs.flatMap encodeChannel)]
          simp [ih hcs]

theorem decodeCmd_encodeCmd (c : Command) (h : validCommand c = true) :
    decodeCmd c.tag (encodeCmd c) = some c := by
  cases c with
  | get_extended_version => rfl
  | ml_init => rfl
  | ml_stop => rfl
  | ml_get_current_data sel => rfl
  | ml_update u =>
    cases u with
    | mk chans =>
      simp only [validCommand, Bool.and_eq_true, decide_eq_true_eq,
        List.all_eq_true] at h
      obtain ⟨hlen, hall⟩ := h
      simp only [Command.tag, encodeCmd, decodeCmd]
      rw [← hlen, decodeChannels_encodeChannels chans hall]

/-- The channel configuration built by the notebook for channel 0: period 20,
three points (100, 20), (100, 0), (100, -20). -/
def notebookChannelConfig : ChannelConfig :=
  ⟨20, 3, [⟨100, 20⟩, ⟨100, 0⟩, ⟨100, -20⟩]⟩

/-- The notebook update command: channel 0 enabled with
`notebookChannelConfig`, the remaining seven channels untouched. -/
def notebookMlUpdate : MlUpdate :=
  ⟨(true, notebookChannelConfig) :: List.replicate 7 (false, zeroChannelConfig)⟩

/-- C1: for every valid command of the five kinds, decoding its encoding
yields the original command, and the notebook update for channel 0 with
period 20 and points (100, 20), (100, 0), (100, -20) encodes to a payload
containing exactly the six values 100, 20, 100, 0, 100, -20 in that order,
with decoding reproducing the same channel configuration. -/
theorem claim_C1_roundtrip :
    (∀ c : Command, validCommand c = true → decodeCmd c.tag (encodeCmd c) = some c) ∧
    (∃ pre post, encodeCmd (.ml_update notebookMlUpdate) =
      pre ++ [100, 20, 100, 0, 100, -20] ++ post) ∧
    decodeCmd .ml_update (encodeCmd (.ml_update notebookMlUpdate)) =
      some (.ml_update notebookMlUpdate) := by
  refine ⟨decodeCmd_encodeCmd, ⟨[1, 20, 3], [0, 0, 0, 0, 0, 0, 0], by rfl⟩, ?_⟩
  exact decodeCmd_encodeCmd (.ml_update notebookMlUpdate) (by decide)

/-- Witness for C1: the round-trip instantiated at the notebook update. -/
theorem claim_C1_roundtrip_witness :
    validCommand (.ml_update notebookMlUpdate) = true ∧
    decodeCmd (Command.ml_update notebookMlUpdate).tag
      (encodeCmd (.ml_update notebookMlUpdate)) = some (.ml_update notebookMlUpdate) :=
  ⟨by decide, claim_C1_roundtrip.1 (.ml_update notebookMlUpdate) (by decide)⟩

/-! ## Encode-time safety validation and the Transport (spec sections 4.4, 7) -/

/-- Modelled from the spec: the configured device-safe amplitude bound for
point currents (the exact value is device-configured; the bound itself is what
the encoder checks). -/
def maxCurrent : Int := 150

/-- Modelled from the spec: the device-supported bound on the point count of a
channel configuration. -/
def maxPoints : Nat := 16

/-- Modelled from the spec: the Transport output stream, the sequence of
values written to the serial link so far. -/
structure Transport where
  out : List Int
deriving DecidableEq

/-- Modelled from the spec: a request to update one channel with a
configuration, as issued by the notebook (channel 0..7). -/
structure UpdateRequest where
  channel : Nat
  config : ChannelConfig

/-- Modelled from the spec: the synchronous outcome of a send call. -/
inductive SendResult
  | ok
  | safetyViolation
deriving DecidableEq

/-- Modelled from the spec: encode-time point validation, point time positive
and current within the configured safety bounds. -/
def pointSafe (p : StimPoint) : Bool :=
  decide (0 < p.time) && decide (-maxCurrent ≤ p.current) && decide (p.current ≤ maxCurrent)

/-- Modelled from the spec: encode-time channel-configuration validation. -/
def configSafe (c : ChannelConfig) : Bool :=
  c.points.all pointSafe && decide (c.points.length ≤ maxPoints) &&
    decide (c.number_of_points = c.points.length)

/-- Modelled from the spec: encoders validate domain constraints before
serialization, channel index in 0..7 and the configuration safe. -/
def validRequest (r : UpdateRequest) : Bool :=
  decide (r.channel < 8) && configSafe r.config

/-- The update command built from a one-channel request. -/
def requestUpdate (r : UpdateRequest) : Command :=
  .ml_update ⟨(List.range 8).map
    (fun i => if i = r.channel then (true, r.config) else (false, zeroChannelConfig))⟩

/-- Modelled from the spec: the send path for an update.  Domain constraints
are validated before serialization; a violation is surfaced synchronously as
`safetyViolation` and nothing is written to the Transport. -/
def sendMlUpdate (tr : Transport) (r : UpdateRequest) : SendResult × Transport :=
  if validRequest r then (.ok, ⟨tr.out ++ encodeCmd (requestUpdate r)⟩)
  else (.safetyViolation, tr)

/-- C2: a command violating a domain constraint at encode time (channel index
outside 0..7, a non-positive point time, or a current outside the configured
safety bounds) is rejected synchronously with a safety violation and the
Transport output stream is unchanged. -/
theorem claim_C2_safety_violation (tr : Transport) (r : UpdateRequest)
    (h : 8 ≤ r.channel ∨ (∃ p ∈ r.config.points, p.time ≤ 0) ∨
      (∃ p ∈ r.config.points, p.current < -maxCurrent ∨ maxCurrent < p.current)) :
    sendMlUpdate tr r = (.safetyViolation, tr) := by
  have hv : ¬ (validRequest r = true) := by
    intro hvr
    simp only [validRequest, configSafe, Bool.and_eq_true, decide_eq_true_eq,
      List.all_eq_true] at hvr
    obtain ⟨hch, ⟨hpts, hlen⟩, hnp⟩ := hvr
    rcases h with h | ⟨p, hp, ht⟩ | ⟨p, hp, hc⟩
    · omega
    · have hps := hpts p hp
      simp only [pointSafe, Bool.and_eq_true, decide_eq_true_eq] at hps
      omega
    · have hps := hpts p hp
      simp only [pointSafe, Bool.and_eq_true, decide_eq_true_eq] at hps
      rcases hc with hc | hc <;> omega
  have hv2 : validRequest r = false := by
    cases hfv : validRequest r
    · rfl
    · exact absurd hfv hv
  simp [sendMlUpdate, hv2]

/-- Witness for C2: the request for channel index 8 is rejected and the empty
Transport stream stays empty. -/
theorem claim_C2_safety_violation_witness :
    (8 ≤ (UpdateRequest.mk 8 zeroChannelConfig).channel ∨
      (∃ p ∈ (UpdateRequest.mk 8 zeroChannelConfig).config.points, p.time ≤ 0) ∨
      (∃ p ∈ (UpdateRequest.mk 8 zeroChannelConfig).config.points,
        p.current < -maxCurrent ∨ maxCurrent < p.current)) ∧
    sendMlUpdate ⟨[]⟩ ⟨8, zeroChannelConfig⟩ = (.safetyViolation, ⟨[]⟩) :=
  ⟨Or.inl (by decide),
    claim_C2_safety_violation ⟨[]⟩ ⟨8, zeroChannelConfig⟩ (Or.inl (by decide))⟩

/-! ## Packet number generator (spec section 4.2) -/

/-- Modelled from the spec: search for the next packet number not currently
pending correlation, starting at a candidate counter and stepping modulo the
bound M; the fuel bounds the search (the generator must skip values in the
pending window). -/
def nextFree (M : Nat) (pending : List Nat) : Nat → Nat → Option Nat
  | 0, _ => none
  | fuel + 1, c => if c ∈ pending then nextFree M pending fuel ((c + 1) % M) else some c

/-- Modelled from the spec: the packet number generator, mirroring
smpt_packet_number_generator_next.  Returns the issued packet number together
with the successor counter state; strictly increasing, wrapping to 0 after
the maximum representable value M - 1, never returning a value currently
pending correlation. -/
def generator_next (M : Nat) (pending : List Nat) (c : Nat) : Option (Nat × Nat) :=
  match nextFree M pending M c with
  | some v => some (v, (v + 1) % M)
  | none => none

/-- The value issued by the k-th generator call with no pending correlations,
starting from counter c0. -/
def pnSeq (M c0 k : Nat) : Nat := (c0 + k) % M

/-- The trace of n successive generator calls with no pending correlations. -/
def pnTrace (M : Nat) : Nat → Nat → List Nat
  | _, 0 => []
  | c, n + 1 =>
    match generator_next M [] c with
    | some (v, c2) => v :: pnTrace M c2 n
    | none => []

theorem nextFree_empty (M fuel c : Nat) (h : 0 < fuel) :
    nextFree M [] fuel c = some c := by
  cases fuel with
  | zero => omega
  | succ n => simp [nextFree]

theorem generator_next_empty (M c : Nat) (hM : 0 < M) :
    generator_next M [] c = some (c, (c + 1) % M) := by
  simp [generator_next, nextFree_empty M M c hM]

theorem nextFree_not_pending (M : Nat) (pending : List Nat) :
    ∀ fuel c v, nextFree M pending fuel c = some v → v ∉ pending := by
  intro fuel
  induction fuel with
  | zero => intro c v h; simp [nextFree] at h
  | succ n ih =>
    intro c v h
    by_cases hc : c ∈ pending
    · simp only [nextFree, if_pos hc] at h
      exact ih _ v h
    · simp only [nextFree, if_neg hc] at h
      cases h
      exact hc

theorem pnTrace_eq_map (M : Nat) (hM : 0 < M) :
    ∀ n c, c < M → pnTrace M c n = (List.range n).map (fun k => (c + k) % M) := by
  intro n
  induction n with
  | zero => intro c _; rfl
  | succ n ih =>
    intro c hc
    have hstep : pnTrace M c (n + 1) = c :: pnTrace M ((c + 1) % M) n := by
      simp [pnTrace, generator_next_empty M c hM]
    rw [hstep, ih ((c + 1) % M) (Nat.mod_lt _ hM)]
    rw [List.range_succ_eq_map, List.map_cons, List.map_map]
    congr 1
    · simp [Nat.mod_eq_of_lt hc]
    · apply List.map_congr_left
      intro k _
      simp only [Function.comp_apply, Nat.succ_eq_add_one]
      rw [Nat.mod_add_mod]
      congr 1
      omega

theorem pnTrace_nodup (M c0 : Nat) (hM : 0 < M) (hc : c0 < M) (n : Nat) (hn : n ≤ M) :
    (pnTrace M c0 n).Nodup := by
  rw [pnTrace_eq_map M hM n c0 hc]
  refine List.Nodup.map_on ?_ (List.nodup_range n)
  intro x hx y hy hxy
  rw [List.mem_range] at hx hy
  have hmx : (c0 + x) ≡ (c0 + y) [MOD M] := hxy
  have h2 : x ≡ y [MOD M] := Nat.ModEq.add_left_cancel' c0 hmx
  have h3 : x % M = y % M := h2
  rw [Nat.mod_eq_of_lt (by omega), Nat.mod_eq_of_lt (by omega)] at h3
  exact h3

/-- C3: the packet number generator issues a sequence that is strictly
increasing until it wraps to 0 after the maximum representable value M - 1,
repeats no value between two consecutive wraparounds, and never returns a
value currently pending correlation. -/
theorem claim_C3_packet_number_generator (M c0 : Nat) (hM : 0 < M) (hc : c0 < M) :
    (∀ k, pnSeq M c0 k < M) ∧
    (∀ k, pnSeq M c0 k ≠ M - 1 → pnSeq M c0 (k + 1) = pnSeq M c0 k + 1) ∧
    (∀ k, pnSeq M c0 k = M - 1 → pnSeq M c0 (k + 1) = 0) ∧
    (∀ n, pnTrace M c0 n = (List.range n).map (pnSeq M c0)) ∧
    (∀ n, n ≤ M → (pnTrace M c0 n).Nodup) ∧
    (∀ pending c v c2, generator_next M pending c = some (v, c2) → v ∉ pending) := by
  refine ⟨?_, ?_, ?_, ?_, ?_, ?_⟩
  · intro k
    exact Nat.mod_lt _ hM
  · intro k hne
    have ha : (c0 + k) % M < M := Nat.mod_lt _ hM
    show (c0 + (k + 1)) % M = (c0 + k) % M + 1
    rw [show c0 + (k + 1) = c0 + k + 1 from rfl, ← Nat.mod_add_mod]
    have hlt : (c0 + k) % M + 1 < M := by
      simp only [pnSeq] at hne
      omega
    exact Nat.mod_eq_of_lt hlt
  · intro k hk
    show (c0 + (k + 1)) % M = 0
    rw [show c0 + (k + 1) = c0 + k + 1 from rfl, ← Nat.mod_add_mod]
    simp only [pnSeq] at hk
    rw [hk]
    rw [Nat.sub_add_cancel hM, Nat.mod_self]
  · intro n
    exact pnTrace_eq_map M hM n c0 hc
  · intro n hn
    exact pnTrace_nodup M c0 hM hc n hn
  · intro pending c v c2 h
    simp only [generator_next] at h
    cases heq : nextFree M pending M c with
    | none => rw [heq] at h; simp at h
    | some v2 =>
      rw [heq] at h
      simp at h
      rw [h.1] at heq
      exact nextFree_not_pending M pending M c v heq

/-- Witness for C3: with bound 256 and counter 0 the first 13 issued packet
numbers are pairwise distinct. -/
theorem claim_C3_packet_number_generator_witness : (pnTrace 256 0 13).Nodup :=
  (claim_C3_packet_number_generator 256 0 (by decide) (by decide)).2.2.2.2.1 13 (by decide)

/-! ## Notebook mid-level session sends (C10) -/

/-- The command tags of the sends performed by the notebook mid-level session
cell: ml_init, ml_update, ten ml_get_current_data requests, ml_stop. -/
def notebookCommands : List CmdTag :=
  [.ml_init, .ml_update] ++ List.replicate 10 .ml_get_current_data ++ [.ml_stop]

/-- Each notebook send is immediately preceded by a fresh generator call; this
assigns the successive generator values to the commands in send order. -/
def assignPacketNumbers (M : Nat) : List CmdTag → Nat → List (CmdTag × Nat)
  | [], _ => []
  | t :: ts, c =>
    match generator_next M [] c with
    | some (v, c2) => (t, v) :: assignPacketNumbers M ts c2
    | none => []

theorem assignPacketNumbers_map_snd (M : Nat) (hM : 0 < M) :
    ∀ (ts : List CmdTag) (c : Nat),
      (assignPacketNumbers M ts c).map Prod.snd = pnTrace M c ts.length := by
  intro ts
  induction ts with
  | nil => intro c; rfl
  | cons t ts ih =>
    intro c
    simp [assignPacketNumbers, pnTrace, generator_next_empty M c hM, ih]

theorem assignPacketNumbers_map_fst (M : Nat) (hM : 0 < M) :
    ∀ (ts : List CmdTag) (c : Nat),
      (assignPacketNumbers M ts c).map Prod.fst = ts := by
  intro ts
  induction ts with
  | nil => intro c; rfl
  | cons t ts ih =>
    intro c
    simp [assignPacketNumbers, generator_next_empty M c hM, ih]

/-- C10: every notebook send carries a packet number from a fresh generator
call, and when the generator is strictly increasing modulo a bound of at
least 13, the 13 commands of the session all carry distinct packet numbers. -/
theorem claim_C10_distinct_packet_numbers (M c0 : Nat) (hM : 0 < M) (hc : c0 < M)
    (hM13 : 13 ≤ M) :
    (assignPacketNumbers M notebookCommands c0).map Prod.fst = notebookCommands ∧
    ((assignPacketNumbers M notebookCommands c0).map Prod.snd).Nodup := by
  constructor
  · exact assignPacketNumbers_map_fst M hM notebookCommands c0
  · rw [assignPacketNumbers_map_snd M hM notebookCommands c0]
    have hlen : notebookCommands.length = 13 := by decide
    rw [hlen]
    exact pnTrace_nodup M c0 hM hc 13 hM13

/-- Witness for C10: with bound 256 and counter 0 the notebook session sends
13 commands with pairwise distinct packet numbers. -/
theorem claim_C10_distinct_packet_numbers_witness :
    (assignPacketNumbers 256 notebookCommands 0).map Prod.fst = notebookCommands ∧
    ((assignPacketNumbers 256 notebookCommands 0).map Prod.snd).Nodup :=
  claim_C10_distinct_packet_numbers 256 0 (by decide) (by decide) (by decide)

/-! ## Framer and Codec (spec sections 3, 4.1, 6) -/

/-- Modelled from the spec: the frame start marker byte. -/
def startByte : Nat := 240

/-- Modelled from the spec: the frame end marker byte. -/
def stopByte : Nat := 15

/-- Modelled from the spec: the frame checksum over the command identifier and
the payload bytes. -/
def checksum (cmd : Nat) (payload : List Nat) : Nat :=
  (cmd + payload.sum) % 256

/-- Modelled from the spec: a decoded frame, a command identifier with its
payload bytes. -/
structure Frame where
  command_id : Nat
  payload : List Nat
deriving DecidableEq

/-- Modelled from the spec: the frame wire format of section 6, start byte,
2-byte little-endian length, command identifier, payload, checksum, end
byte. -/
def encodeFrame (f : Frame) : List Nat :=
  startByte :: f.payload.length % 256 :: f.payload.length / 256 :: f.command_id ::
    (f.payload ++ [checksum f.command_id f.payload, stopByte])

/-- A frame whose checksum byte has been replaced by an arbitrary byte c. -/
def corruptChecksum (f : Frame) (c : Nat) : List Nat :=
  startByte :: f.payload.length % 256 :: f.payload.length / 256 :: f.command_id ::
    (f.payload ++ [c, stopByte])

/-- Modelled from the spec: an event produced by the decoder, a decoded frame
or a frame error (checksum mismatch or malformed framing). -/
inductive DecodeEvent
  | frame (f : Frame)
  | frameError
deriving DecidableEq

/-- Modelled from the spec: the frame extractor over the buffered bytes.
Bytes before a start marker are discarded (resynchronization scan); an
incomplete frame is left buffered; a structurally complete frame with the
end marker in place and a correct checksum is emitted; a checksum mismatch
discards the whole frame and emits a frame error; a misplaced end marker
emits a frame error and rescans from the byte after the start marker. -/
def extract : List Nat → List DecodeEvent × List Nat
  | [] => ([], [])
  | b :: rest =>
    if b = startByte then
      match hr : rest with
      | lo :: hi :: cmd :: tail3 =>
        if tail3.length < lo + 256 * hi + 2 then ([], b :: rest)
        else
          if tail3.getD (lo + 256 * hi + 1) 0 = stopByte then
            if tail3.getD (lo + 256 * hi) 0 = checksum cmd (tail3.take (lo + 256 * hi)) then
              let r := extract (tail3.drop (lo + 256 * hi + 2))
              (.frame ⟨cmd, tail3.take (lo + 256 * hi)⟩ :: r.1, r.2)
            else
              let r := extract (tail3.drop (lo + 256 * hi + 2))
              (.frameError :: r.1, r.2)
          else
            let r := extract rest
            (.frameError :: r.1, r.2)
      | _ => ([], b :: rest)
    else extract rest
termination_by buf => buf.length
decreasing_by
  all_goals simp_wf
  all_goals simp_all
  all_goals omega

/-- Modelled from the spec: the Codec state, the buffered incomplete trailing
data across feed calls. -/
structure CodecState where
  buf : List Nat
deriving DecidableEq

/-- The initial Codec state with an empty buffer. -/
def initCodec : CodecState := ⟨[]⟩

/-- Modelled from the spec: feed a chunk of bytes to the Codec.  The chunk is
appended to the buffered data and every complete frame is extracted; the
unconsumed remainder stays buffered. -/
def feed (s : CodecState) (chunk : List Nat) : List DecodeEvent × CodecState :=
  ((extract (s.buf ++ chunk)).1, ⟨(extract (s.buf ++ chunk)).2⟩)

/-- Feed a list of chunks in sequence, accumulating the decoded events. -/
def feedList (s : CodecState) : List (List Nat) → List DecodeEvent × CodecState
  | [] => ([], s)
  | c :: cs =>
    ((feed s c).1 ++ (feedList (feed s c).2 cs).1, (feedList (feed s c).2 cs).2)

theorem extract_nil : extract [] = ([], []) := by
  simp [extract]

theorem extract_noise (b : Nat) (rest : List Nat) (h : b ≠ startByte) :
    extract (b :: rest) = extract rest := by
  rw [extract.eq_def]
  simp [h]

theorem extract_frame_ok (lo hi cmd : Nat) (tail3 : List Nat)
    (hlen : ¬ tail3.length < lo + 256 * hi + 2)
    (hend : tail3.getD (lo + 256 * hi + 1) 0 = stopByte)
    (hchk : tail3.getD (lo + 256 * hi) 0 = checksum cmd (tail3.take (lo + 256 * hi))) :
    extract (startByte :: lo :: hi :: cmd :: tail3) =
      (.frame ⟨cmd, tail3.take (lo + 256 * hi)⟩ ::
          (extract (tail3.drop (lo + 256 * hi + 2))).1,
        (extract (tail3.drop (lo + 256 * hi + 2))).2) := by
  rw [extract]
  simp only [List.getD_eq_getElem?_getD] at hend hchk
  simp [hlen, hend, hchk]

theorem extract_frame_badchk (lo hi cmd : Nat) (tail3 : List Nat)
    (hlen : ¬ tail3.length < lo + 256 * hi + 2)
    (hend : tail3.getD (lo + 256 * hi + 1) 0 = stopByte)
    (hchk : ¬ tail3.getD (lo + 256 * hi) 0 = checksum cmd (tail3.take (lo + 256 * hi))) :
    extract (startByte :: lo :: hi :: cmd :: tail3) =
      (.frameError :: (extract (tail3.drop (lo + 256 * hi + 2))).1,
        (extract (tail3.drop (lo + 256 * hi + 2))).2) := by
  rw [extract]
  simp only [List.getD_eq_getElem?_getD] at hend hchk
  simp [hlen, hend, hchk]

theorem extract_frame_badend (lo hi cmd : Nat) (tail3 : List Nat)
    (hlen : ¬ tail3.length < lo + 256 * hi + 2)
    (hend : ¬ tail3.getD (lo + 256 * hi + 1) 0 = stopByte) :
    extract (startByte :: lo :: hi :: cmd :: tail3) =
      (.frameError :: (extract (lo :: hi :: cmd :: tail3)).1,
        (extract (lo :: hi :: cmd :: tail3)).2) := by
  rw [extract]
  simp only [List.getD_eq_getElem?_getD] at hend
  simp [hlen, hend]

theorem extract_encodeFrame (cmd : Nat) (payload rest : List Nat) :
    extract (encodeFrame ⟨cmd, payload⟩ ++ rest) =
      (.frame ⟨cmd, payload⟩ :: (extract rest).1, (extract rest).2) := by
  have hL : payload.length % 256 + 256 * (payload.length / 256) = payload.length :=
    Nat.mod_add_div _ _
  have hform : encodeFrame ⟨cmd, payload⟩ ++ rest =
      startByte :: payload.length % 256 :: payload.length / 256 :: cmd ::
        (payload ++ (checksum cmd payload :: stopByte :: rest)) := by
    simp [encodeFrame]
  have htake : (payload ++ (checksum cmd payload :: stopByte :: rest)).take
      (payload.length % 256 + 256 * (payload.length / 256)) = payload :=
    List.take_left' hL.symm
  have hdrop : (payload ++ (checksum cmd payload :: stopByte :: rest)).drop
      (payload.length % 256 + 256 * (payload.length / 256) + 2) = rest := by
    have hsplit : payload ++ (checksum cmd payload :: stopByte :: rest) =
        (payload ++ [checksum cmd payload, stopByte]) ++ rest := by simp
    rw [hsplit]
    refine List.drop_left' ?_
    simp
    omega
  have hlen : ¬ (payload ++ (checksum cmd payload :: stopByte :: rest)).length <
      payload.length % 256 + 256 * (payload.length / 256) + 2 := by
    simp
    omega
  have hend : (payload ++ (checksum cmd payload :: stopByte :: rest)).getD
      (payload.length % 256 + 256 * (payload.length / 256) + 1) 0 = stopByte := by
    rw [List.getD_eq_getElem?_getD, List.getElem?_append_right (by omega)]
    have hidx : payload.length % 256 + 256 * (payload.length / 256) + 1 - payload.length = 1 := by
      omega
    rw [hidx]
    simp
  have hchk : (payload ++ (checksum cmd payload :: stopByte :: rest)).getD
      (payload.length % 256 + 256 * (payload.length / 256)) 0 =
      checksum cmd ((payload ++ (checksum cmd payload :: stopByte :: rest)).take
        (payload.length % 256 + 256 * (payload.length / 256))) := by
    rw [htake, List.getD_eq_getElem?_getD, List.getElem?_append_right (by omega)]
    have hidx : payload.length % 256 + 256 * (payload.length / 256) - payload.length = 0 := by
      omega
    rw [hidx]
    simp
  rw [hform, extract_frame_ok _ _ _ _ hlen hend hchk, htake, hdrop]

theorem extract_incomplete (lo hi cmd : Nat) (tail3 : List Nat)
    (hlen : tail3.length < lo + 256 * hi + 2) :
    extract (startByte :: lo :: hi :: cmd :: tail3) =
      ([], startByte :: lo :: hi :: cmd :: tail3) := by
  rw [extract]
  simp [hlen]

theorem extract_short (rest : List Nat)
    (h : ∀ (lo hi cmd : Nat) (tail3 : List Nat), rest = lo :: hi :: cmd :: tail3 → False) :
    extract (startByte :: rest) = ([], startByte :: rest) := by
  match rest, h with
  | [], _ => rw [extract.eq_def]; simp
  | [a], _ => rw [extract.eq_def]; simp
  | [a, b], _ => rw [extract.eq_def]; simp
  | a :: b :: c :: t, h => exact absurd rfl (h a b c t)

theorem extract_corruptChecksum (cmd : Nat) (payload rest : List Nat) (c : Nat)
    (hc : c ≠ checksum cmd payload) :
    extract (corruptChecksum ⟨cmd, payload⟩ c ++ rest) =
      (.frameError :: (extract rest).1, (extract rest).2) := by
  have hform : corruptChecksum ⟨cmd, payload⟩ c ++ rest =
      startByte :: payload.length % 256 :: payload.length / 256 :: cmd ::
        (payload ++ (c :: stopByte :: rest)) := by
    simp [corruptChecksum]
  have htake : (payload ++ (c :: stopByte :: rest)).take
      (payload.length % 256 + 256 * (payload.length / 256)) = payload :=
    List.take_left' (by omega)
  have hdrop : (payload ++ (c :: stopByte :: rest)).drop
      (payload.length % 256 + 256 * (payload.length / 256) + 2) = rest := by
    have hsplit : payload ++ (c :: stopByte :: rest) =
        (payload ++ [c, stopByte]) ++ rest := by simp
    rw [hsplit]
    refine List.drop_left' ?_
    simp
    omega
  have hlen : ¬ (payload ++ (c :: stopByte :: rest)).length <
      payload.length % 256 + 256 * (payload.length / 256) + 2 := by
    simp
    omega
  have hend : (payload ++ (c :: stopByte :: rest)).getD
      (payload.length % 256 + 256 * (payload.length / 256) + 1) 0 = stopByte := by
    rw [List.getD_eq_getElem?_getD, List.getElem?_append_right (by omega)]
    have hidx : payload.length % 256 + 256 * (payload.length / 256) + 1 - payload.length = 1 := by
      omega
    rw [hidx]
    simp
  have hchk : ¬ (payload ++ (c :: stopByte :: rest)).getD
      (payload.length % 256 + 256 * (payload.length / 256)) 0 =
      checksum cmd ((payload ++ (c :: stopByte :: rest)).take
        (payload.length % 256 + 256 * (payload.length / 256))) := by
    rw [htake, List.getD_eq_getElem?_getD, List.getElem?_append_right (by omega)]
    have hidx : payload.length % 256 + 256 * (payload.length / 256) - payload.length = 0 := by
      omega
    rw [hidx]
    simpa using hc
  rw [hform, extract_frame_badchk _ _ _ _ hlen hend hchk, hdrop]

theorem extract_append (buf : List Nat) : ∀ more : List Nat,
    extract (buf ++ more) =
      ((extract buf).1 ++ (extract ((extract buf).2 ++ more)).1,
        (extract ((extract buf).2 ++ more)).2) := by
  induction buf using extract.induct with
  | case1 =>
    intro more
    simp [extract_nil]
  | case2 lo hi cmd tail3 hlen =>
    intro more
    rw [extract_incomplete lo hi cmd tail3 hlen]
    simp
  | case3 lo hi cmd tail3 hlen hend hchk ih =>
    intro more
    have hlen2 : ¬ (tail3 ++ more).length < lo + 256 * hi + 2 := by
      simp
      omega
    have hend2 : (tail3 ++ more).getD (lo + 256 * hi + 1) 0 = stopByte := by
      rw [List.getD_eq_getElem?_getD, List.getElem?_append_left (by omega)]
      rw [List.getD_eq_getElem?_getD] at hend
      exact hend
    have htake2 : (tail3 ++ more).take (lo + 256 * hi) = tail3.take (lo + 256 * hi) :=
      List.take_append_of_le_length (by omega)
    have hchk2 : (tail3 ++ more).getD (lo + 256 * hi) 0 =
        checksum cmd ((tail3 ++ more).take (lo + 256 * hi)) := by
      rw [htake2, List.getD_eq_getElem?_getD, List.getElem?_append_left (by omega)]
      rw [List.getD_eq_getElem?_getD] at hchk
      exact hchk
    have hdrop2 : (tail3 ++ more).drop (lo + 256 * hi + 2) =
        tail3.drop (lo + 256 * hi + 2) ++ more :=
      List.drop_append_of_le_length (by omega)
    have hstep : startByte :: lo :: hi :: cmd :: tail3 ++ more =
        startByte :: lo :: hi :: cmd :: (tail3 ++ more) := by simp
    rw [hstep, extract_frame_ok _ _ _ _ hlen2 hend2 hchk2, htake2, hdrop2,
      extract_frame_ok _ _ _ _ hlen hend hchk, ih more]
    simp
  | case4 lo hi cmd tail3 hlen hend hchk ih =>
    intro more
    have hlen2 : ¬ (tail3 ++ more).length < lo + 256 * hi + 2 := by
      simp
      omega
    have hend2 : (tail3 ++ more).getD (lo + 256 * hi + 1) 0 = stopByte := by
      rw [List.getD_eq_getElem?_getD, List.getElem?_append_left (by omega)]
      rw [List.getD_eq_getElem?_getD] at hend
      exact hend
    have htake2 : (tail3 ++ more).take (lo + 256 * hi) = tail3.take (lo + 256 * hi) :=
      List.take_append_of_le_length (by omega)
    have hchk2 : ¬ (tail3 ++ more).getD (lo + 256 * hi) 0 =
        checksum cmd ((tail3 ++ more).take (lo + 256 * hi)) := by
      rw [htake2, List.getD_eq_getElem?_getD, List.getElem?_append_left (by omega)]
      rw [List.getD_eq_getElem?_getD] at hchk
      exact hchk
    have hdrop2 : (tail3 ++ more).drop (lo + 256 * hi + 2) =
        tail3.drop (lo + 256 * hi + 2) ++ more :=
      List.drop_append_of_le_length (by omega)
    have hstep : startByte :: lo :: hi :: cmd :: tail3 ++ more =
        startByte :: lo :: hi :: cmd :: (tail3 ++ more) := by simp
    rw [hstep, extract_frame_badchk _ _ _ _ hlen2 hend2 hchk2, hdrop2,
      extract_frame_badchk _ _ _ _ hlen hend hchk, ih more]
    simp
  | case5 lo hi cmd tail3 hlen hend ih =>
    intro more
    have hlen2 : ¬ (tail3 ++ more).length < lo + 256 * hi + 2 := by
      simp
      omega
    have hend2 : ¬ (tail3 ++ more).getD (lo + 256 * hi + 1) 0 = stopByte := by
      rw [List.getD_eq_getElem?_getD, List.getElem?_append_left (by omega)]
      rw [List.getD_eq_getElem?_getD] at hend
      exact hend
    have hstep : startByte :: lo :: hi :: cmd :: tail3 ++ more =
        startByte :: lo :: hi :: cmd :: (tail3 ++ more) := by simp
    rw [hstep, extract_frame_badend _ _ _ _ hlen2 hend2,
      extract_frame_badend _ _ _ _ hlen hend]
    have hstep2 : lo :: hi :: cmd :: (tail3 ++ more) =
        (lo :: hi :: cmd :: tail3) ++ more := by simp
    rw [hstep2, ih more]
    simp
  | case6 rest hfalse =>
    intro more
    rw [extract_short rest hfalse]
    simp
  | case7 b rest hb ih =>
    intro more
    have hstep : b :: rest ++ more = b :: (rest ++ more) := by simp
    rw [hstep, extract_noise b (rest ++ more) hb, extract_noise b rest hb, ih more]

theorem feed_append (s : CodecState) (c1 c2 : List Nat) :
    feed s (c1 ++ c2) =
      ((feed s c1).1 ++ (feed (feed s c1).2 c2).1, (feed (feed s c1).2 c2).2) := by
  simp only [feed]
  rw [← List.append_assoc, extract_append (s.buf ++ c1) c2]

theorem feedList_flatten : ∀ (chunks : List (List Nat)) (s : CodecState), chunks ≠ [] →
    feedList s chunks = feed s chunks.flatten
  | [], _, hne => absurd rfl hne
  | [c], s, _ => by
    simp [feedList, List.flatten]
  | c :: c2 :: cs2, s, _ => by
    rw [show (c :: c2 :: cs2).flatten = c ++ (c2 :: cs2).flatten from rfl,
      feed_append s c ((c2 :: cs2).flatten)]
    rw [show feedList s (c :: c2 :: cs2) =
      ((feed s c).1 ++ (feedList (feed s c).2 (c2 :: cs2)).1,
        (feedList (feed s c).2 (c2 :: cs2)).2) from rfl]
    rw [feedList_flatten (c2 :: cs2) (feed s c).2 (by simp)]

theorem flatten_map_singleton (bs : List Nat) :
    (bs.map (fun b => [b])).flatten = bs := by
  induction bs with
  | nil => rfl
  | cons b bs ih => simp [ih]

/-- C4: feeding a byte stream to the Codec one byte at a time produces the
same decoded events and final state as feeding it in larger chunks or all at
once: for a fresh Codec the two agree on every byte stream, and from any
state a nonempty chunk list is equivalent to its concatenation. -/
theorem claim_C4_chunk_boundary_independence :
    (∀ (s : CodecState) (chunks : List (List Nat)), chunks ≠ [] →
      feedList s chunks = feed s chunks.flatten) ∧
    (∀ bs : List Nat, feedList initCodec (bs.map (fun b => [b])) = feed initCodec bs) := by
  constructor
  · intro s chunks hne
    exact feedList_flatten chunks s hne
  · intro bs
    cases hbs : bs with
    | nil => simp [feedList, feed, initCodec, extract_nil]
    | cons b bs2 =>
      conv_rhs => rw [← flatten_map_singleton (b :: bs2)]
      exact feedList_flatten ((b :: bs2).map (fun x => [x])) initCodec (by simp)

/-- Witness for C4: a two-chunk split of a concrete stream equals feeding the
concatenation. -/
theorem claim_C4_chunk_boundary_independence_witness :
    feedList initCodec [[240], [0]] = feed initCodec [[240], [0]].flatten :=
  claim_C4_chunk_boundary_independence.1 initCodec [[240], [0]] (by simp)

/-- C5: corrupting the checksum byte of a valid frame and feeding the
corrupted frame followed by any valid frame to a fresh Codec yields a frame
error for the first frame and still decodes the second frame, leaving an
empty buffer: the corrupted frame is discarded without aborting the
stream. -/
theorem claim_C5_checksum_corruption_recovery (f1 f2 : Frame) (c : Nat)
    (hc : c ≠ checksum f1.command_id f1.payload) :
    (feed initCodec (corruptChecksum f1 c ++ encodeFrame f2)).1 =
      [.frameError, .frame f2] ∧
    (feed initCodec (corruptChecksum f1 c ++ encodeFrame f2)).2 = initCodec := by
  obtain ⟨cmd1, p1⟩ := f1
  obtain ⟨cmd2, p2⟩ := f2
  have h2 : extract (encodeFrame ⟨cmd2, p2⟩) = ([.frame ⟨cmd2, p2⟩], []) := by
    have := extract_encodeFrame cmd2 p2 []
    simpa [extract_nil] using this
  have h1 : extract (corruptChecksum ⟨cmd1, p1⟩ c ++ encodeFrame ⟨cmd2, p2⟩) =
      ([.frameError, .frame ⟨cmd2, p2⟩], []) := by
    rw [extract_corruptChecksum cmd1 p1 (encodeFrame ⟨cmd2, p2⟩) c hc, h2]
  constructor
  · simp [feed, initCodec, h1]
  · simp [feed, initCodec, h1]

/-- Witness for C5: a concrete corrupted frame followed by a concrete valid
frame decodes to a frame error and the second frame. -/
theorem claim_C5_checksum_corruption_recovery_witness :
    (4 : Nat) ≠ checksum (Frame.mk 1 [2]).command_id (Frame.mk 1 [2]).payload ∧
    (feed initCodec (corruptChecksum ⟨1, [2]⟩ 4 ++ encodeFrame ⟨5, []⟩)).1 =
      [.frameError, .frame ⟨5, []⟩] :=
  ⟨by decide,
    (claim_C5_checksum_corruption_recovery ⟨1, [2]⟩ ⟨5, []⟩ 4 (by decide)).1⟩

/-! ## Device Session and acknowledgment correlation (spec section 4.3) -/

/-- Modelled from the spec: a decoded acknowledgment, carrying the
command-number tag and the originating packet number. -/
structure Ack where
  packet_number : Nat
  command_number : CmdTag
deriving DecidableEq

/-- Modelled from the spec: the Device Session correlation state, the queue
of pending (packet number, expected command tag) correlations. -/
structure Session where
  pending : List (Nat × CmdTag)
deriving DecidableEq

/-- Modelled from the spec: send assigns and records the packet number,
adding a pending correlation. -/
def sendCmd (s : Session) (pn : Nat) (expected : CmdTag) : Session :=
  ⟨s.pending ++ [(pn, expected)]⟩

/-- Modelled from the spec: the outcome of resolving one acknowledgment,
resolved to its pending correlation or dropped and reported. -/
inductive AckResult
  | resolved (pn : Nat) (tag : CmdTag)
  | droppedUnknown (pn : Nat)
  | droppedMismatch (pn : Nat)
deriving DecidableEq

/-- Modelled from the spec: resolve one decoded acknowledgment against the
pending correlations.  A packet number with no pending entry is dropped as
stale or duplicate, a command-number tag mismatch is dropped, a match removes
the correlation and resolves the acknowledgment.  The function is total: the
session never fails on a dropped acknowledgment. -/
def resolveAck (s : Session) (a : Ack) : Session × AckResult :=
  match s.pending.find? (fun e => e.1 == a.packet_number) with
  | none => (s, .droppedUnknown a.packet_number)
  | some e =>
    if e.2 = a.command_number then
      (⟨s.pending.filter (fun x => ! (x.1 == a.packet_number))⟩, .resolved e.1 e.2)
    else (s, .droppedMismatch a.packet_number)

/-- Modelled from the spec: the sessions reachable from the fresh session by
sending commands with packet numbers not currently pending (the generator
contract) and resolving received acknowledgments. -/
inductive Reachable : Session → Prop
  | init : Reachable ⟨[]⟩
  | send_step {s : Session} {pn : Nat} {tag : CmdTag} : Reachable s →
      pn ∉ s.pending.map Prod.fst → Reachable (sendCmd s pn tag)
  | ack_step {s : Session} {a : Ack} : Reachable s → Reachable (resolveAck s a).1

/-- C6: every reachable session has at most one pending correlation per
outstanding packet number, and resolving an acknowledgment drops (without
failing the session) one whose packet number has no pending entry or whose
command-number tag mismatches, while a match removes exactly the pending
entries with that packet number and resolves to that correlation. -/
theorem claim_C6_correlation (s : Session) (hs : Reachable s) :
    (s.pending.map Prod.fst).Nodup ∧
    (∀ a : Ack, a.packet_number ∉ s.pending.map Prod.fst →
      resolveAck s a = (s, .droppedUnknown a.packet_number)) ∧
    (∀ (a : Ack) (e : Nat × CmdTag),
      s.pending.find? (fun x => x.1 == a.packet_number) = some e →
      e.2 ≠ a.command_number →
      resolveAck s a = (s, .droppedMismatch a.packet_number)) ∧
    (∀ (a : Ack) (e : Nat × CmdTag),
      s.pending.find? (fun x => x.1 == a.packet_number) = some e →
      e.2 = a.command_number →
      (resolveAck s a).1.pending =
        s.pending.filter (fun x => ! (x.1 == a.packet_number)) ∧
      (resolveAck s a).2 = .resolved e.1 e.2) := by
  refine ⟨?_, ?_, ?_, ?_⟩
  · induction hs with
    | init => simp
    | send_step hr hfresh ih =>
      simp only [sendCmd, List.map_append, List.map_cons, List.map_nil]
      rw [List.nodup_append]
      refine ⟨ih, List.nodup_singleton _, ?_⟩
      intro x hx hmem
      simp at hmem
      subst hmem
      exact hfresh hx
    | ack_step hr ih =>
      rename_i s2 a
      rw [resolveAck]
      cases hfind : s2.pending.find? (fun e => e.1 == a.packet_number) with
      | none => exact ih
      | some e =>
        by_cases htag : e.2 = a.command_number
        · simp only [if_pos htag]
          exact ((List.filter_sublist _).map Prod.fst).nodup ih
        · simp only [if_neg htag]
          exact ih
  · intro a hnot
    have hfind : s.pending.find? (fun e => e.1 == a.packet_number) = none := by
      rw [List.find?_eq_none]
      intro x hx
      simp only [beq_iff_eq]
      intro hx2
      exact hnot (hx2 ▸ List.mem_map_of_mem Prod.fst hx)
    rw [resolveAck, hfind]
  · intro a e hfind hne
    rw [resolveAck, hfind]
    simp [hne]
  · intro a e hfind heq
    rw [resolveAck, hfind]
    simp [heq]

/-- Witness for C6: the fresh session is reachable and satisfies the
correlation invariant. -/
theorem claim_C6_correlation_witness : ((Session.mk []).pending.map Prod.fst).Nodup :=
  (claim_C6_correlation ⟨[]⟩ Reachable.init).1

/-! ## Mid-Level Streaming Controller state machine (spec section 4.5) -/

/-- Modelled from the spec: the controller states Idle, Initialized,
Streaming, Stopped. -/
inductive MlState
  | idle
  | initialized
  | streaming
  | stopped
deriving DecidableEq

/-- Modelled from the spec: the controller events, a successful init
acknowledgment with matching packet number and tag Ml_Init_Ack, any other
acknowledgment, an update command sent, an explicit stop command sent, and
the session close. -/
inductive MlEvent
  | initAckMatched
  | ackOther
  | updateSent
  | stopSent
  | sessionClosed
deriving DecidableEq

/-- Modelled from the spec: the Mid-Level Streaming Controller transition
function.  Idle moves to Initialized on the successful init acknowledgment,
Initialized moves to Streaming on the first update sent, Streaming stays on
further updates and moves to Stopped on an explicit stop or session close;
every other event leaves the state unchanged. -/
def mlStep : MlState → MlEvent → MlState
  | .idle, .initAckMatched => .initialized
  | .initialized, .updateSent => .streaming
  | .streaming, .updateSent => .streaming
  | .streaming, .stopSent => .stopped
  | .streaming, .sessionClosed => .stopped
  | s, _ => s

/-- C7: the controller moves only along Idle to Initialized to Streaming to
Stopped: Idle transitions exactly on a successful init acknowledgment,
Initialized to Streaming exactly on the first update sent, Streaming to
Stopped exactly on an explicit stop or session close, and no transitions
other than these (plus staying in place) occur. -/
theorem claim_C7_state_machine :
    (∀ e, mlStep .idle e = .initialized ↔ e = .initAckMatched) ∧
    (∀ e, mlStep .initialized e = .streaming ↔ e = .updateSent) ∧
    (∀ e, mlStep .streaming e = .stopped ↔ (e = .stopSent ∨ e = .sessionClosed)) ∧
    (∀ s e, mlStep s e = s ∨
      (s = .idle ∧ mlStep s e = .initialized) ∨
      (s = .initialized ∧ mlStep s e = .streaming) ∨
      (s = .streaming ∧ mlStep s e = .stopped)) := by
  refine ⟨?_, ?_, ?_, ?_⟩
  · intro e
    cases e <;> simp [mlStep]
  · intro e
    cases e <;> simp [mlStep]
  · intro e
    cases e <;> simp [mlStep]
  · intro s e
    cases s <;> cases e <;> simp [mlStep]

/-! ## Notebook port-scan wait loop (C8), embedded from the source -/

/-- The body of the notebook wait loop is only `time.sleep(1)`: the counter
cnt is not modified. -/
def waitLoopBody (cnt : Nat) : Nat := cnt

/-- The notebook loop condition,
`not smpt_new_packet_received(device) and cnt < 3`. -/
def waitLoopCond (new_packet : Bool) (cnt : Nat) : Bool :=
  !new_packet && decide (cnt < 3)

/-- The counter value after n iterations of the loop body, starting at 0. -/
def cntAfter (n : Nat) : Nat := waitLoopBody^[n] 0

/-- The timeout branch guard following the loop, `if cnt == 3`. -/
def timeoutBranch (cnt : Nat) : Bool := cnt == 3

/-- C8: the notebook wait loop never increments cnt, so after any number of
iterations cnt is 0; whenever the loop exits, cnt is 0 and the timeout branch
guarded by cnt == 3 is not taken; and if no new packet is ever received the
loop condition stays true forever, so the loop does not terminate. -/
theorem claim_C8_wait_loop :
    (∀ n, cntAfter n = 0) ∧
    (∀ (recv : Nat → Bool) (n : Nat), waitLoopCond (recv n) (cntAfter n) = false →
      cntAfter n = 0 ∧ timeoutBranch (cntAfter n) = false) ∧
    (∀ recv : Nat → Bool, (∀ k, recv k = false) →
      ∀ n, waitLoopCond (recv n) (cntAfter n) = true) := by
  have hcnt : ∀ n, cntAfter n = 0 := fun n => Function.iterate_fixed rfl n
  refine ⟨hcnt, ?_, ?_⟩
  · intro recv n _
    exact ⟨hcnt n, by simp [timeoutBranch, hcnt n]⟩
  · intro recv hrecv n
    simp [waitLoopCond, hrecv n, hcnt n]

/-- Witness for C8: at iteration 0 with a packet received the loop exits with
cnt equal to 0 and the timeout branch not taken. -/
theorem claim_C8_wait_loop_witness :
    waitLoopCond ((fun _ => true) 0) (cntAfter 0) = false ∧
    (cntAfter 0 = 0 ∧ timeoutBranch (cntAfter 0) = false) :=
  ⟨by decide, claim_C8_wait_loop.2.1 (fun _ => true) 0 (by decide)⟩

/-! ## Notebook channel-state scan (C9), embedded from the source -/

/-- The Ok channel state constant of the library enumeration. -/
def Smpt_Ml_Channel_State_Ok : Nat := 0

/-- The notebook channel-state scan: error_on_channel starts at -1 and is
overwritten by each index i in range(8) whose channel state is not Ok. -/
def error_on_channel (channel_state : Nat → Nat) : Int :=
  (List.range 8).foldl
    (fun acc i => if channel_state i ≠ Smpt_Ml_Channel_State_Ok then (i : Int) else acc)
    (-1)

/-- The highest index below n with a non-Ok channel state, or -1 when every
such state is Ok. -/
def largestErrorBelow (channel_state : Nat → Nat) : Nat → Int
  | 0 => -1
  | n + 1 =>
    if channel_state n ≠ Smpt_Ml_Channel_State_Ok then (n : Int)
    else largestErrorBelow channel_state n

theorem error_scan_eq_largest (cs : Nat → Nat) : ∀ n,
    (List.range n).foldl
      (fun acc i => if cs i ≠ Smpt_Ml_Channel_State_Ok then (i : Int) else acc) (-1) =
    largestErrorBelow cs n := by
  intro n
  induction n with
  | zero => rfl
  | succ n ih =>
    rw [List.range_succ, List.foldl_append, ih]
    rfl

theorem largestErrorBelow_allOk (cs : Nat → Nat) :
    ∀ n, (∀ i, i < n → cs i = Smpt_Ml_Channel_State_Ok) → largestErrorBelow cs n = -1 := by
  intro n
  induction n with
  | zero => intro _; rfl
  | succ n ih =>
    intro h
    rw [largestErrorBelow, if_neg (by simpa using h n (by omega))]
    exact ih (fun i hi => h i (by omega))

theorem largestErrorBelow_highest (cs : Nat → Nat) :
    ∀ n i, i < n → cs i ≠ Smpt_Ml_Channel_State_Ok →
      (∀ j, i < j → j < n → cs j = Smpt_Ml_Channel_State_Ok) →
      largestErrorBelow cs n = i := by
  intro n
  induction n with
  | zero => intro i hi; omega
  | succ n ih =>
    intro i hi herr habove
    by_cases hin : i = n
    · subst hin
      rw [largestErrorBelow, if_pos herr]
    · have hlt : i < n := by omega
      rw [largestErrorBelow, if_neg (by simpa using habove n (by omega) (by omega))]
      exact ih i hlt herr (fun j h1 h2 => habove j h1 (by omega))

/-- C9: after the notebook channel-state scan, error_on_channel equals the
largest index i in 0..7 whose channel state differs from Ok, or -1 when every
channel state is Ok; when several channels are in error simultaneously, only
the highest-indexed one is reported. -/
theorem claim_C9_error_on_channel (channel_state : Nat → Nat) :
    ((∀ i, i < 8 → channel_state i = Smpt_Ml_Channel_State_Ok) →
      error_on_channel channel_state = -1) ∧
    (∀ i, i < 8 → channel_state i ≠ Smpt_Ml_Channel_State_Ok →
      (∀ j, i < j → j < 8 → channel_state j = Smpt_Ml_Channel_State_Ok) →
      error_on_channel channel_state = i) := by
  constructor
  · intro h
    rw [error_on_channel, error_scan_eq_largest]
    exact largestErrorBelow_allOk channel_state 8 h
  · intro i hi herr habove
    rw [error_on_channel, error_scan_eq_largest]
    exact largestErrorBelow_highest channel_state 8 i hi herr habove

/-- Witness for C9: with every channel Ok the scan reports -1. -/
theorem claim_C9_error_on_channel_witness : error_on_channel (fun _ => 0) = -1 :=
  (claim_C9_error_on_channel (fun _ => 0)).1 (by intro i _; rfl)

end ScienceMode
